import Mathlib

/-!
Verification of the 2.5D re-rendering core: a shallow embedding of the
depth-to-mesh construction (`MeshGenerator`, `DepthMesh`), the projection
matrix builder (`GLRenderer::createProjectionMatrix`), the render-call
precondition/framebuffer logic (`GLRenderer::render`, `Framebuffer::create`)
and the fragment/mask raster contract.

Floating-point values are embedded as `FloatVal`: either a non-finite value
(NaN or an infinity) or an exact rational.  All arithmetic the claims are
about is sign/comparison logic and exact linear formulas, which rationals
reproduce faithfully.
-/

namespace RGBD

/-- A floating-point depth value: non-finite (NaN/Inf) or an exact value. -/
inductive FloatVal where
  | nonfinite : FloatVal
  | val : ℚ → FloatVal
deriving DecidableEq

/-- Embeds `std::isfinite`. -/
def FloatVal.isFiniteB : FloatVal → Bool
  | .nonfinite => false
  | .val _ => true

/-- Numeric content of a finite value (0 for the non-finite marker). -/
def FloatVal.toQ : FloatVal → ℚ
  | .nonfinite => 0
  | .val q => q

/-- Camera intrinsics (`struct Intrinsics` in include/types.hpp). -/
structure Intrinsics where
  fx : ℚ
  fy : ℚ
  cx : ℚ
  cy : ℚ
  width : ℕ
  height : ℕ
deriving DecidableEq

/-- Default-constructed `Intrinsics()` (member initialisers in types.hpp). -/
def defaultIntrinsics : Intrinsics :=
  { fx := 525, fy := 525, cx := 320, cy := 240, width := 640, height := 480 }

/-- Embeds `Intrinsics::scaled` (uniform focal rescale, principal point unchanged). -/
def Intrinsics.scaled (K : Intrinsics) (s : ℚ) : Intrinsics :=
  { K with fx := K.fx * s, fy := K.fy * s }

/-- Depth discontinuity thresholds (`struct DepthThresholds`). -/
structure DepthThresholds where
  tau_rel : ℚ
  tau_abs : ℚ
deriving DecidableEq

/-- Embeds `DepthThresholds::isDiscontinuity` (include/types.hpp, lines 107-126):
non-finite or non-positive depths are a discontinuity; otherwise break when
the relative difference exceeds `tau_rel`, or the absolute difference exceeds
the adaptive threshold `tau_abs * max(1, max_z / 2)`. -/
def DepthThresholds.isDiscontinuity (t : DepthThresholds) (z1 z2 : FloatVal) : Bool :=
  match z1, z2 with
  | .val a, .val b =>
    if a ≤ 0 ∨ b ≤ 0 then true
    else
      let diff := |a - b|
      let min_z := min a b
      let max_z := max a b
      let rel_diff := diff / min_z
      if rel_diff > t.tau_rel then true
      else
        let adaptive_abs := t.tau_abs * max 1 (max_z / 2)
        if diff > adaptive_abs then true
        else false
  | _, _ => true

/-- The discontinuity predicate as the specification's words state it
(plain absolute threshold `tau_abs`, no adaptive scaling).  Kept only to be
compared against the source's `DepthThresholds.isDiscontinuity`. -/
def specPlainDiscontinuity (t : DepthThresholds) (z1 z2 : FloatVal) : Bool :=
  match z1, z2 with
  | .val a, .val b =>
    if a ≤ 0 ∨ b ≤ 0 then true
    else decide (|a - b| / min a b > t.tau_rel) || decide (|a - b| > t.tau_abs)
  | _, _ => true

/-- The discontinuity predicate with the adaptive absolute threshold spelled
out, structured as the spec sentence is (validity guard, then relative OR
absolute test). -/
def adaptiveDiscontinuity (t : DepthThresholds) (z1 z2 : FloatVal) : Bool :=
  match z1, z2 with
  | .val a, .val b =>
    if a ≤ 0 ∨ b ≤ 0 then true
    else
      decide (|a - b| / min a b > t.tau_rel) ||
        decide (|a - b| > t.tau_abs * max 1 (max a b / 2))
  | _, _ => true

/-- Embeds `isValidDepth` (include/types.hpp): finite and strictly positive. -/
def isValidDepth : FloatVal → Bool
  | .nonfinite => false
  | .val q => decide (0 < q)

/-- A mesh vertex (`struct Vertex`): camera-space position, texture uv. -/
structure Vertex where
  x : ℚ
  y : ℚ
  z : ℚ
  u : ℚ
  v : ℚ
deriving DecidableEq

/-- Default-constructed `Vertex()` (all zeros). -/
def defaultVertex : Vertex := ⟨0, 0, 0, 0, 0⟩

/-- A triangle (`struct Triangle`): three vertex indices. -/
structure Triangle where
  v0 : ℕ
  v1 : ℕ
  v2 : ℕ
deriving DecidableEq

/-- Embeds `struct Mesh`: vertex list plus triangle list. -/
structure Mesh where
  vertices : List Vertex
  triangles : List Triangle
deriving DecidableEq

/-- Embeds `Mesh::empty()`: no vertices or no triangles. -/
def Mesh.emptyB (m : Mesh) : Bool :=
  m.vertices.isEmpty || m.triangles.isEmpty

/-- Embeds `GLRenderer::createProjectionMatrix` (gl_renderer.cpp, lines 218-261):
the 16 entries of the column-major 4x4 projection matrix.  Index `c*4+r`
holds row `r`, column `c`. -/
def createProjectionMatrix (K : Intrinsics) (near far : ℚ) : Fin 16 → ℚ :=
  fun i =>
    let W : ℚ := (K.width : ℚ)
    let H : ℚ := (K.height : ℚ)
    let n := near
    let f := far
    if i.val = 0 then 2 * K.fx / W
    else if i.val = 5 then -2 * K.fy / H
    else if i.val = 8 then 2 * K.cx / W - 1
    else if i.val = 9 then 1 - 2 * K.cy / H
    else if i.val = 10 then (f + n) / (f - n)
    else if i.val = 11 then 1
    else if i.val = 14 then -2 * f * n / (f - n)
    else 0

/-- A depth map (`cv::Mat` of CV_32F): `dAt v u` is the value at row `v`,
column `u`. -/
structure DepthMap where
  rows : ℕ
  cols : ℕ
  dAt : ℕ → ℕ → FloatVal

/-- An optional validity mask (`cv::Mat` of CV_8U): `some m` supplies the
per-pixel byte `m v u`. -/
def ValidMask := Option (ℕ → ℕ → ℕ)

/-- Embeds `MeshGenerator::backproject` (mesh_generator.cpp, lines 14-36):
pixel-center back-projection plus normalized texture coordinates. -/
def backproject (u v z : ℚ) (K : Intrinsics) : Vertex :=
  let u_center := u + 1/2
  let v_center := v + 1/2
  { x := (u_center - K.cx) * z / K.fx
    y := (v_center - K.cy) * z / K.fy
    z := z
    u := u_center / (K.width : ℚ)
    v := v_center / (K.height : ℚ) }

/-- Embeds `MeshGenerator::shouldBreakEdge`: delegates to the thresholds. -/
def shouldBreakEdge (t : DepthThresholds) (z1 z2 : FloatVal) : Bool :=
  t.isDiscontinuity z1 z2

/-- Embeds `MeshGenerator::isValidTriangle` (mesh_generator.cpp, lines 42-54). -/
def isValidTriangle (t : DepthThresholds) (z0 z1 z2 : FloatVal) : Bool :=
  if !isValidDepth z0 || !isValidDepth z1 || !isValidDepth z2 then false
  else if shouldBreakEdge t z0 z1 then false
  else if shouldBreakEdge t z1 z2 then false
  else if shouldBreakEdge t z2 z0 then false
  else true

/-- The pixel validity test of the vertex loop (mesh_generator.cpp,
lines 94-98): valid depth, and the mask byte positive when a mask is given. -/
def pixelValid (depth : DepthMap) (mask : ValidMask) (v u : ℕ) : Bool :=
  match mask with
  | none => isValidDepth (depth.dAt v u)
  | some m => isValidDepth (depth.dAt v u) && decide (0 < m v u)

/-- Row-major enumeration of the pixel grid, mirroring the nested
`for v / for u` loops. -/
def pixelList (W H : ℕ) : List (ℕ × ℕ) :=
  (List.range H).flatMap fun v => (List.range W).map fun u => (v, u)

/-- One iteration of the vertex loop: append the back-projected vertex and
record its index in the grid, or record -1. -/
def vertexStep (depth : DepthMap) (K : Intrinsics) (mask : ValidMask)
    (acc : List Vertex × List ℤ) (p : ℕ × ℕ) : List Vertex × List ℤ :=
  if pixelValid depth mask p.1 p.2 then
    (acc.1 ++ [backproject (p.2 : ℚ) (p.1 : ℚ) (depth.dAt p.1 p.2).toQ K],
     acc.2 ++ [(acc.1.length : ℤ)])
  else
    (acc.1, acc.2 ++ [-1])

/-- The vertex-generation pass (mesh_generator.cpp, lines 82-107): produces
the vertex list and the dense pixel-to-vertex-index grid (-1 = invalid). -/
def vertexPass (depth : DepthMap) (K : Intrinsics) (mask : ValidMask) :
    List Vertex × List ℤ :=
  (pixelList depth.cols depth.rows).foldl (vertexStep depth K mask) ([], [])

/-- Lookup `vertexGrid[i]`, with the out-of-range default -1. -/
def gridAt (grid : List ℤ) (i : ℕ) : ℤ := grid.getD i (-1)

/-- Row-major enumeration of the 2x2 quad anchors `(v,u)` with
`v < H-1`, `u < W-1`. -/
def quadList (W H : ℕ) : List (ℕ × ℕ) :=
  (List.range (H - 1)).flatMap fun v => (List.range (W - 1)).map fun u => (v, u)

/-- The two candidate triangles of one quad (mesh_generator.cpp, lines
114-150): `{00,10,11}` then `{00,11,01}`, each emitted only when all three
grid indices exist and `isValidTriangle` holds on the three depths. -/
def quadTriangles (t : DepthThresholds) (depth : DepthMap) (grid : List ℤ)
    (v u : ℕ) : List Triangle :=
  let W := depth.cols
  let idx00 := gridAt grid (v * W + u)
  let idx10 := gridAt grid (v * W + (u + 1))
  let idx01 := gridAt grid ((v + 1) * W + u)
  let idx11 := gridAt grid ((v + 1) * W + (u + 1))
  let z00 := depth.dAt v u
  let z10 := depth.dAt v (u + 1)
  let z01 := depth.dAt (v + 1) u
  let z11 := depth.dAt (v + 1) (u + 1)
  (if 0 ≤ idx00 ∧ 0 ≤ idx10 ∧ 0 ≤ idx11 ∧ isValidTriangle t z00 z10 z11 then
    [⟨idx00.toNat, idx10.toNat, idx11.toNat⟩] else []) ++
  (if 0 ≤ idx00 ∧ 0 ≤ idx11 ∧ 0 ≤ idx01 ∧ isValidTriangle t z00 z11 z01 then
    [⟨idx00.toNat, idx11.toNat, idx01.toNat⟩] else [])

/-- Embeds `MeshGenerator::generate` (mesh_generator.cpp, lines 61-159): empty input
gives an empty mesh; otherwise the vertex pass followed by the quad
triangulation pass. -/
def generate (t : DepthThresholds) (depth : DepthMap) (K : Intrinsics)
    (mask : ValidMask) : Mesh :=
  if depth.rows = 0 ∨ depth.cols = 0 then { vertices := [], triangles := [] }
  else
    let vp := vertexPass depth K mask
    { vertices := vp.1
      triangles :=
        (quadList depth.cols depth.rows).flatMap fun p =>
          quadTriangles t depth vp.2 p.1 p.2 }

/-- The index grid the vertex pass writes, expressed by direct recursion over
the pixel stream with the running vertex count `n` (proof companion to
`vertexPass`). -/
def gridSpec (valid : ℕ × ℕ → Bool) : ℕ → List (ℕ × ℕ) → List ℤ
  | _, [] => []
  | n, p :: ps =>
    if valid p then (n : ℤ) :: gridSpec valid (n + 1) ps
    else -1 :: gridSpec valid n ps

/-- An image of which only the dimensions matter here (`cv::Mat` texture). -/
structure ImageMat where
  rows : ℕ
  cols : ℕ
deriving DecidableEq

/-- The value `std::numeric_limits<float>::max()` as an exact rational. -/
def floatMaxQ : ℚ := 2 ^ 128 - 2 ^ 104

/-- The fields of a `DepthMesh` object (include section of depth_mesh). -/
structure DepthMeshState where
  mesh : Mesh
  texture : Option ImageMat
  intrinsics : Intrinsics
  minDepth : ℚ
  maxDepth : ℚ
deriving DecidableEq

/-- Embeds `DepthMesh::clear` (depth_mesh.cpp, lines 79-85). -/
def DepthMeshState.clear (_s : DepthMeshState) : DepthMeshState :=
  { mesh := ⟨[], []⟩, texture := none, intrinsics := defaultIntrinsics,
    minDepth := 0, maxDepth := 0 }

/-- Embeds `DepthMesh::build` (depth_mesh.cpp, lines 12-69): clear, validate inputs,
store texture and intrinsics (width/height overwritten with the depth map's),
generate the mesh, fail on an empty mesh, else compute depth statistics. -/
def DepthMesh.build (s : DepthMeshState) (rgb : ImageMat) (depth : DepthMap)
    (K : Intrinsics) (t : DepthThresholds) : Bool × DepthMeshState :=
  let s0 := s.clear
  if (rgb.rows = 0 ∨ rgb.cols = 0) ∨ (depth.rows = 0 ∨ depth.cols = 0) then
    (false, s0)
  else if rgb.cols ≠ depth.cols ∨ rgb.rows ≠ depth.rows then (false, s0)
  else
    let K2 := { K with width := depth.cols, height := depth.rows }
    let m := generate t depth K2 none
    let s1 := { s0 with texture := some rgb, intrinsics := K2, mesh := m }
    if m.emptyB then (false, s1)
    else
      let mn := m.vertices.foldl
        (fun acc w => if 0 < w.z then min acc w.z else acc) floatMaxQ
      let mx := m.vertices.foldl
        (fun acc w => if 0 < w.z then max acc w.z else acc) 0
      (true, { s1 with minDepth := mn, maxDepth := mx })

/-- Which precondition a render call reports as missing
(`GLRenderer::render`, gl_renderer.cpp, lines 263-278). -/
inductive RenderErr where
  | notInitialized
  | noMesh
  | noTexture
deriving DecidableEq

/-- Renderer and framebuffer state.  GL object names are naturals, 0 meaning
"no object"; `nextHandle` models the GL name pool, so every allocation
returns a previously unused name. -/
structure RenderState where
  initialized : Bool
  numIndices : ℕ
  rgbTexture : ℕ
  fbId : ℕ
  fbWidth : ℕ
  fbHeight : ℕ
  nextHandle : ℕ
deriving DecidableEq

/-- Embeds `Framebuffer::create` (unnamed framebuffer source, lines 45-103):
destroys the previous attachments and allocates fresh ones sized `w t h`. -/
def fbCreate (s : RenderState) (w h : ℕ) : RenderState :=
  { s with fbId := s.nextHandle, nextHandle := s.nextHandle + 1,
           fbWidth := w, fbHeight := h }

/-- The precondition checks and framebuffer-resize step of
`GLRenderer::render` (gl_renderer.cpp, lines 263-291): refuse when not
initialized, no mesh uploaded, or no texture uploaded; then (re)create the
framebuffer only when absent or sized differently from the target. -/
def renderCall (s : RenderState) (targetK : Intrinsics) :
    Except RenderErr Unit × RenderState :=
  if s.initialized = false then (.error .notInitialized, s)
  else if s.numIndices = 0 then (.error .noMesh, s)
  else if s.rgbTexture = 0 then (.error .noTexture, s)
  else
    let outW := targetK.width
    let outH := targetK.height
    if s.fbId = 0 ∨ s.fbWidth ≠ outW ∨ s.fbHeight ≠ outH then
      (.ok (), fbCreate s outW outH)
    else (.ok (), s)

/-- A rasterized fragment reaching the fragment stage: linear pixel index,
window-space depth, sampled color (abstract), interpolated camera-space Z. -/
structure Fragment where
  pix : ℕ
  winDepth : ℚ
  color : ℕ
  metricZ : ℚ

/-- The three MRT attachments plus the z-buffer of the raster target. -/
structure RasterState where
  rgb : ℕ → ℕ
  depth : ℕ → ℚ
  mask : ℕ → ℕ
  zbuf : ℕ → ℚ

/-- The per-render clear (gl_renderer.cpp, lines 297-299):
`glClearColor(0,0,0,0)` zeroes all three color attachments (rgb, metric
depth, mask), `glClearDepthf(1)` sets the z-buffer to the far value. -/
def clearedRaster : RasterState :=
  { rgb := fun _ => 0, depth := fun _ => 0, mask := fun _ => 0,
    zbuf := fun _ => 1 }

/-- Modelled from the spec: the GPU rasterization/depth-test stage (spec
section 4.3) is hardware, not repository code.  A fragment that passes the
`GL_LESS` depth test writes the outputs of the repository's fragment shader
(unnamed shader source: `outColor = color`, `outDepth = vDepth`,
`outMask = 1`) and updates the z-buffer; a failing fragment changes
nothing. -/
def processFragment (s : RasterState) (fr : Fragment) : RasterState :=
  if fr.winDepth < s.zbuf fr.pix then
    { rgb := fun p => if p = fr.pix then fr.color else s.rgb p
      depth := fun p => if p = fr.pix then fr.metricZ else s.depth p
      mask := fun p => if p = fr.pix then 1 else s.mask p
      zbuf := fun p => if p = fr.pix then fr.winDepth else s.zbuf p }
  else s

/-- Modelled from the spec: one render pass processes the fragment stream in
order over the cleared raster target. -/
def rasterize (frs : List Fragment) : RasterState :=
  frs.foldl processFragment clearedRaster

/-- Modelled from the spec: pixel `p` is covered by a depth-test-winning
fragment — some fragment at `p` passed the depth test at the moment it was
processed. -/
def wins (frs : List Fragment) (p : ℕ) : Prop :=
  ∃ (i : ℕ) (h : i < frs.length),
    (frs.get ⟨i, h⟩).pix = p ∧
    (frs.get ⟨i, h⟩).winDepth < (rasterize (frs.take i)).zbuf p

/-- Synthetic step depth map: left half 2.0 m, right half 10.0 m. -/
def stepDepth (W H : ℕ) : DepthMap :=
  { rows := H, cols := W, dAt := fun _ u => .val (if u < W / 2 then 2 else 10) }

/-- Constant-depth map. -/
def constDepth (W H : ℕ) (c : ℚ) : DepthMap :=
  { rows := H, cols := W, dAt := fun _ _ => .val c }

/-- C1. The claim's plain-threshold predicate disagrees with the source's
`isDiscontinuity` at `z1 = 10`, `z2 = 10.4` with `tau_rel = 0.05`,
`tau_abs = 0.1`: the absolute difference 0.4 exceeds `tau_abs` (the claim
says discontinuity) but the code's adaptive threshold is
`0.1 * max(1, 10.4/2) = 0.52`, so the code reports no discontinuity. -/
theorem c1_plain_threshold_refuted :
    specPlainDiscontinuity ⟨5/100, 1/10⟩ (.val 10) (.val (52/5)) = true ∧
    DepthThresholds.isDiscontinuity ⟨5/100, 1/10⟩ (.val 10) (.val (52/5)) = false := by
  constructor <;>
    norm_num [specPlainDiscontinuity, DepthThresholds.isDiscontinuity, abs]

/-- C1 (amended). `DepthThresholds::isDiscontinuity` returns true whenever
either depth is non-finite or ≤ 0, and otherwise returns true exactly when
`|z1-z2| / min(z1,z2) > tau_rel` OR `|z1-z2| > tau_abs * max(1, max(z1,z2)/2)`
(the adaptive absolute threshold). -/
theorem c1_isDiscontinuity_eq_adaptive (t : DepthThresholds) (z1 z2 : FloatVal) :
    t.isDiscontinuity z1 z2 = adaptiveDiscontinuity t z1 z2 := by
  cases z1 with
  | nonfinite => cases z2 <;> rfl
  | val a =>
    cases z2 with
    | nonfinite => rfl
    | val b =>
      simp only [DepthThresholds.isDiscontinuity, adaptiveDiscontinuity]
      by_cases h0 : a ≤ 0 ∨ b ≤ 0
      · simp [h0]
      · simp only [h0, if_false]
        by_cases h1 : |a - b| / min a b > t.tau_rel
        · simp [h1]
        · by_cases h2 : |a - b| > t.tau_abs * max 1 (max a b / 2)
          · simp [h1, h2]
          · simp [h1, h2]

/-- C2. For target intrinsics and planes `0 < near < far`, the projection
matrix has x-scale `2fx/W`, y-scale `-2fy/H`, x-offset `2cx/W-1`, y-offset
`1-2cy/H`, z-row entries `(f+n)/(f-n)` and `-2fn/(f-n)`, w-row `(0,0,1,0)`
(so `w_c = Z`), and every other entry zero.  Column-major: entry `(r,c)` is
index `c*4+r`. -/
theorem c2_projection_matrix_entries (K : Intrinsics) (near far : ℚ)
    (hn : 0 < near) (hnf : near < far) :
    createProjectionMatrix K near far 0 = 2 * K.fx / (K.width : ℚ) ∧
    createProjectionMatrix K near far 5 = -2 * K.fy / (K.height : ℚ) ∧
    createProjectionMatrix K near far 8 = 2 * K.cx / (K.width : ℚ) - 1 ∧
    createProjectionMatrix K near far 9 = 1 - 2 * K.cy / (K.height : ℚ) ∧
    createProjectionMatrix K near far 10 = (far + near) / (far - near) ∧
    createProjectionMatrix K near far 14 = -2 * far * near / (far - near) ∧
    createProjectionMatrix K near far 3 = 0 ∧
    createProjectionMatrix K near far 7 = 0 ∧
    createProjectionMatrix K near far 11 = 1 ∧
    createProjectionMatrix K near far 15 = 0 ∧
    (∀ i : Fin 16, i ∉ ([0, 5, 8, 9, 10, 11, 14] : List (Fin 16)) →
      createProjectionMatrix K near far i = 0) := by
  refine ⟨rfl, rfl, rfl, rfl, rfl, rfl, rfl, rfl, rfl, rfl, ?_⟩
  intro i hi
  fin_cases i <;> simp_all [createProjectionMatrix]

/-- C2 witness: concrete intrinsics with `near = 1 < far = 10`. -/
theorem c2_projection_matrix_entries_witness :
    createProjectionMatrix defaultIntrinsics 1 10 0 = 2 * 525 / 640 ∧
    createProjectionMatrix defaultIntrinsics 1 10 10 = 11 / 9 := by
  have h := c2_projection_matrix_entries defaultIntrinsics 1 10 (by norm_num) (by norm_num)
  refine ⟨?_, ?_⟩
  · rw [h.1]; norm_num [defaultIntrinsics]
  · rw [h.2.2.2.2.1]; norm_num


/-- The vertex-pass fold, characterised: vertices are the back-projections of
the valid pixels in order, the grid is `gridSpec`. -/
theorem foldl_vertexStep_eq (depth : DepthMap) (K : Intrinsics)
    (mask : ValidMask) :
    ∀ (ps : List (ℕ × ℕ)) (vs : List Vertex) (g : List ℤ),
      ps.foldl (vertexStep depth K mask) (vs, g) =
        (vs ++ (ps.filter fun p => pixelValid depth mask p.1 p.2).map
            (fun p => backproject (p.2 : ℚ) (p.1 : ℚ) (depth.dAt p.1 p.2).toQ K),
         g ++ gridSpec (fun p => pixelValid depth mask p.1 p.2) vs.length ps) := by
  intro ps
  induction ps with
  | nil => intro vs g; simp [gridSpec]
  | cons p ps ih =>
    intro vs g
    by_cases hp : pixelValid depth mask p.1 p.2
    · simp only [List.foldl_cons, vertexStep, hp, if_true, ih,
        List.filter_cons_of_pos, gridSpec, List.length_append,
        List.length_singleton, List.map_cons, List.append_assoc,
        List.cons_append, List.nil_append]
    · simp only [List.foldl_cons, vertexStep, hp, if_false, ih,
        List.filter_cons_of_neg, gridSpec, List.append_assoc,
        List.cons_append, List.nil_append, Bool.not_eq_true]
      simp [hp, gridSpec]

/-- The function `vertexPass`, characterised. -/
theorem vertexPass_eq (depth : DepthMap) (K : Intrinsics) (mask : ValidMask) :
    vertexPass depth K mask =
      (((pixelList depth.cols depth.rows).filter
          fun p => pixelValid depth mask p.1 p.2).map
        (fun p => backproject (p.2 : ℚ) (p.1 : ℚ) (depth.dAt p.1 p.2).toQ K),
       gridSpec (fun p => pixelValid depth mask p.1 p.2) 0
         (pixelList depth.cols depth.rows)) := by
  have h := foldl_vertexStep_eq depth K mask
    (pixelList depth.cols depth.rows) [] []
  simpa [vertexPass] using h

/-- Row-major pixel enumeration as a flat range. -/
theorem pixelList_eq_map_range (W H : ℕ) :
    pixelList W H = (List.range (H * W)).map fun k => (k / W, k % W) := by
  rcases Nat.eq_zero_or_pos W with hW | hW
  · subst hW
    simp [pixelList]
  · induction H with
    | zero => simp [pixelList]
    | succ H ih =>
      rw [pixelList, List.range_succ, List.flatMap_append]
      rw [pixelList] at ih
      rw [ih, Nat.succ_mul, List.range_add, List.map_append]
      congr 1
      · simp only [List.flatMap_cons, List.flatMap_nil, List.append_nil]
        rw [List.map_map]
        apply List.map_congr_left
        intro u hu
        rw [List.mem_range] at hu
        have hdiv : (H * W + u) / W = H := by
          rw [Nat.mul_comm H W, Nat.mul_add_div hW]
          simp [Nat.div_eq_of_lt hu]
        have hmod : (H * W + u) % W = u := by
          rw [Nat.mul_comm H W, Nat.mul_add_mod]
          exact Nat.mod_eq_of_lt hu
        simp [Function.comp, hdiv, hmod]

/-- Length of the pixel enumeration. -/
theorem pixelList_length (W H : ℕ) : (pixelList W H).length = H * W := by
  rw [pixelList_eq_map_range]; simp

/-- The linear index of a pixel is in range. -/
theorem pixel_index_lt {W H v u : ℕ} (hv : v < H) (hu : u < W) :
    v * W + u < H * W :=
  calc v * W + u < v * W + W := by omega
  _ = (v + 1) * W := by ring
  _ ≤ H * W := Nat.mul_le_mul_right W hv

/-- The pixel at linear index `v*W+u` is `(v,u)`. -/
theorem pixelList_getElem {W H v u : ℕ} (hv : v < H) (hu : u < W)
    (h : v * W + u < (pixelList W H).length) :
    (pixelList W H)[v * W + u] = (v, u) := by
  have hW : 0 < W := lt_of_le_of_lt (Nat.zero_le u) hu
  rw [List.getElem_of_eq (pixelList_eq_map_range W H) h]
  rw [List.getElem_map, List.getElem_range]
  have hdiv : (v * W + u) / W = v := by
    rw [Nat.mul_comm v W, Nat.mul_add_div hW]
    simp [Nat.div_eq_of_lt hu]
  have hmod : (v * W + u) % W = u := by
    rw [Nat.mul_comm v W, Nat.mul_add_mod]
    exact Nat.mod_eq_of_lt hu
  simp [hdiv, hmod]

/-- The grid `gridSpec` has one entry per pixel. -/
theorem gridSpec_length (valid : ℕ × ℕ → Bool) :
    ∀ (ps : List (ℕ × ℕ)) (n : ℕ), (gridSpec valid n ps).length = ps.length := by
  intro ps
  induction ps with
  | nil => intro n; rfl
  | cons p ps ih =>
    intro n
    by_cases hp : valid p <;> simp [gridSpec, hp, ih]

/-- The grid entry of an in-range pixel: its valid-prefix count when valid,
-1 otherwise. -/
theorem gridSpec_getD (valid : ℕ × ℕ → Bool) :
    ∀ (ps : List (ℕ × ℕ)) (n i : ℕ) (h : i < ps.length),
      (gridSpec valid n ps).getD i (-1) =
        if valid ps[i] then ((n : ℤ) + (((ps.take i).filter valid).length : ℤ))
        else -1 := by
  intro ps
  induction ps with
  | nil => intro n i h; simp at h
  | cons p ps ih =>
    intro n i h
    cases i with
    | zero =>
      by_cases hp : valid p <;> simp [gridSpec, hp]
    | succ i =>
      have hi : i < ps.length := by simpa using h
      by_cases hp : valid p
      · rw [show (gridSpec valid n (p :: ps)).getD (i + 1) (-1)
            = (gridSpec valid (n + 1) ps).getD i (-1) from by simp [gridSpec, hp]]
        rw [ih (n + 1) i hi]
        simp only [List.getElem_cons_succ, List.take_succ_cons,
          List.filter_cons_of_pos hp, List.length_cons]
        by_cases hq : valid ps[i]
        · simp only [hq, if_true]
          push_cast
          ring
        · simp [hq]
      · rw [show (gridSpec valid n (p :: ps)).getD (i + 1) (-1)
            = (gridSpec valid n ps).getD i (-1) from by simp [gridSpec, hp]]
        rw [ih n i hi]
        simp only [List.getElem_cons_succ, List.take_succ_cons,
          List.filter_cons_of_neg (by simpa using hp)]

/-- A valid pixel's valid-prefix count indexes into the filtered list. -/
theorem filter_take_length_lt (valid : ℕ × ℕ → Bool) :
    ∀ (ps : List (ℕ × ℕ)) (i : ℕ) (h : i < ps.length), valid ps[i] = true →
      ((ps.take i).filter valid).length < (ps.filter valid).length := by
  intro ps
  induction ps with
  | nil => intro i h; simp at h
  | cons p ps ih =>
    intro i h hv
    cases i with
    | zero =>
      simp only [List.getElem_cons_zero] at hv
      simp [List.filter_cons_of_pos hv]
    | succ i =>
      have hi : i < ps.length := by simpa using h
      simp only [List.getElem_cons_succ] at hv
      by_cases hp : valid p
      · simpa [List.take_succ_cons, List.filter_cons_of_pos hp] using ih i hi hv
      · simpa [List.take_succ_cons, List.filter_cons_of_neg (by simpa using hp)]
          using ih i hi hv

/-- The filtered list at a valid pixel's valid-prefix count is that pixel. -/
theorem filter_take_getD (valid : ℕ × ℕ → Bool) (dflt : ℕ × ℕ) :
    ∀ (ps : List (ℕ × ℕ)) (i : ℕ) (h : i < ps.length), valid ps[i] = true →
      (ps.filter valid).getD ((ps.take i).filter valid).length dflt = ps[i] := by
  intro ps
  induction ps with
  | nil => intro i h; simp at h
  | cons p ps ih =>
    intro i h hv
    cases i with
    | zero =>
      simp only [List.getElem_cons_zero] at hv ⊢
      simp [List.filter_cons_of_pos hv]
    | succ i =>
      have hi : i < ps.length := by simpa using h
      simp only [List.getElem_cons_succ] at hv ⊢
      by_cases hp : valid p
      · simpa [List.take_succ_cons, List.filter_cons_of_pos hp] using ih i hi hv
      · simpa [List.take_succ_cons, List.filter_cons_of_neg (by simpa using hp)]
          using ih i hi hv

/-- C3. The mesh's vertex list is exactly one vertex per valid pixel, in
row-major order: for every pixel `(u,v)` whose depth `z` is finite, strictly
positive and not excluded by the optional validity mask, the vertex is
`X=(u+0.5-cx)z/fx`, `Y=(v+0.5-cy)z/fy`, `Z=z` with texture coordinate
`((u+0.5)/W, (v+0.5)/H)`; pixels failing validity produce no vertex. -/
theorem c3_vertices_per_valid_pixel (t : DepthThresholds) (depth : DepthMap)
    (K : Intrinsics) (mask : ValidMask) :
    (generate t depth K mask).vertices =
      ((pixelList depth.cols depth.rows).filter fun p =>
          (depth.dAt p.1 p.2).isFiniteB &&
            decide (0 < (depth.dAt p.1 p.2).toQ) &&
            (match mask with
             | none => true
             | some m => decide (0 < m p.1 p.2))).map
        fun p =>
          { x := ((p.2 : ℚ) + 1/2 - K.cx) * (depth.dAt p.1 p.2).toQ / K.fx
            y := ((p.1 : ℚ) + 1/2 - K.cy) * (depth.dAt p.1 p.2).toQ / K.fy
            z := (depth.dAt p.1 p.2).toQ
            u := ((p.2 : ℚ) + 1/2) / (K.width : ℚ)
            v := ((p.1 : ℚ) + 1/2) / (K.height : ℚ) } := by
  have hpred : ∀ p : ℕ × ℕ,
      pixelValid depth mask p.1 p.2 =
        ((depth.dAt p.1 p.2).isFiniteB &&
          decide (0 < (depth.dAt p.1 p.2).toQ) &&
          (match mask with
           | none => true
           | some m => decide (0 < m p.1 p.2))) := by
    intro p
    cases hm : mask with
    | none =>
      cases hz : depth.dAt p.1 p.2 <;>
        simp [pixelValid, isValidDepth, hz, FloatVal.isFiniteB, FloatVal.toQ]
    | some m =>
      cases hz : depth.dAt p.1 p.2 <;>
        simp [pixelValid, isValidDepth, hz, FloatVal.isFiniteB, FloatVal.toQ,
          Bool.and_assoc]
  by_cases hempty : depth.rows = 0 ∨ depth.cols = 0
  · have hlen : depth.rows * depth.cols = 0 := by
      rcases hempty with h | h <;> simp [h]
    have hnil : pixelList depth.cols depth.rows = [] := by
      have := pixelList_length depth.cols depth.rows
      rw [hlen] at this
      exact List.eq_nil_of_length_eq_zero this
    simp [generate, hempty, hnil]
  · simp only [generate, hempty, if_false]
    rw [vertexPass_eq]
    rw [List.filter_congr fun p _ => hpred p]
    apply List.map_congr_left
    intro p hp
    rfl

/-- The central vertex-grid correspondence: a non-negative grid entry at an
in-range pixel means the pixel is valid, the entry indexes the vertex list,
and the vertex there is that pixel's back-projection. -/
theorem grid_lookup (t : DepthThresholds) (depth : DepthMap) (K : Intrinsics)
    (mask : ValidMask) (v u : ℕ) (hv : v < depth.rows) (hu : u < depth.cols)
    (hk : 0 ≤ gridAt (vertexPass depth K mask).2 (v * depth.cols + u)) :
    pixelValid depth mask v u = true ∧
    (gridAt (vertexPass depth K mask).2 (v * depth.cols + u)).toNat <
      (vertexPass depth K mask).1.length ∧
    (vertexPass depth K mask).1.getD
        (gridAt (vertexPass depth K mask).2 (v * depth.cols + u)).toNat
        defaultVertex =
      backproject (u : ℚ) (v : ℚ) (depth.dAt v u).toQ K := by
  have hlen : v * depth.cols + u < (pixelList depth.cols depth.rows).length := by
    rw [pixelList_length]
    exact pixel_index_lt hv hu
  have hpx : (pixelList depth.cols depth.rows)[v * depth.cols + u] = (v, u) :=
    pixelList_getElem hv hu hlen
  set valid : ℕ × ℕ → Bool := fun p => pixelValid depth mask p.1 p.2 with hvalid
  have hgrid : (vertexPass depth K mask).2 =
      gridSpec valid 0 (pixelList depth.cols depth.rows) := by
    rw [vertexPass_eq]
  have hgd := gridSpec_getD valid (pixelList depth.cols depth.rows)
    0 (v * depth.cols + u) hlen
  rw [hpx] at hgd
  by_cases hval : valid (v, u)
  · have hcnt : gridAt (vertexPass depth K mask).2 (v * depth.cols + u) =
        ((((pixelList depth.cols depth.rows).take
            (v * depth.cols + u)).filter valid).length : ℤ) := by
      rw [gridAt, hgrid, hgd, if_pos hval]
      ring
    refine ⟨hval, ?_, ?_⟩
    · rw [hcnt]
      have hlt := filter_take_length_lt valid (pixelList depth.cols depth.rows)
        (v * depth.cols + u) hlen (by rw [hpx]; exact hval)
      rw [vertexPass_eq]
      simpa using hlt
    · have hlt := filter_take_length_lt valid (pixelList depth.cols depth.rows)
        (v * depth.cols + u) hlen (by rw [hpx]; exact hval)
      have hgetD := filter_take_getD valid (0, 0) (pixelList depth.cols depth.rows)
        (v * depth.cols + u) hlen (by rw [hpx]; exact hval)
      rw [hpx] at hgetD
      rw [hcnt, vertexPass_eq]
      simp only [Int.toNat_natCast]
      rw [List.getD_eq_getElem _ _ (by simpa using hlt), List.getElem_map]
      rw [List.getD_eq_getElem _ _ hlt] at hgetD
      rw [hgetD]
  · exfalso
    rw [gridAt, hgrid, hgd, if_neg hval] at hk
    omega

/-- The camera-space Z of a back-projected vertex is the depth argument. -/
theorem backproject_z (u v z : ℚ) (K : Intrinsics) :
    (backproject u v z K).z = z := rfl

/-- Unpack `isValidDepth`. -/
theorem isValidDepth_true {z : FloatVal} (h : isValidDepth z = true) :
    z.isFiniteB = true ∧ 0 < z.toQ := by
  cases z with
  | nonfinite => simp [isValidDepth] at h
  | val q =>
    simp [isValidDepth] at h
    simp [FloatVal.isFiniteB, FloatVal.toQ, h]

/-- A finite value round-trips through `toQ`. -/
theorem val_toQ_of_finite {z : FloatVal} (h : z.isFiniteB = true) :
    FloatVal.val z.toQ = z := by
  cases z with
  | nonfinite => simp [FloatVal.isFiniteB] at h
  | val q => rfl

/-- Unpack `isValidTriangle`. -/
theorem isValidTriangle_true {t : DepthThresholds} {z0 z1 z2 : FloatVal}
    (h : isValidTriangle t z0 z1 z2 = true) :
    isValidDepth z0 = true ∧ isValidDepth z1 = true ∧ isValidDepth z2 = true ∧
    shouldBreakEdge t z0 z1 = false ∧ shouldBreakEdge t z1 z2 = false ∧
    shouldBreakEdge t z2 z0 = false := by
  unfold isValidTriangle at h
  split_ifs at h with h1 h2 h3 h4
  all_goals simp at h
  simp at h1 h2 h3 h4
  exact ⟨h1.1.1, h1.1.2, h1.2, h2, h3, h4⟩

/-- Membership in the quad anchor list gives the in-range bounds. -/
theorem mem_quadList {W H : ℕ} {p : ℕ × ℕ} (hp : p ∈ quadList W H) :
    p.1 < H - 1 ∧ p.2 < W - 1 := by
  unfold quadList at hp
  rw [List.mem_flatMap] at hp
  obtain ⟨v, hv, hp⟩ := hp
  rw [List.mem_map] at hp
  obtain ⟨u, hu, rfl⟩ := hp
  rw [List.mem_range] at hv
  rw [List.mem_range] at hu
  exact ⟨hv, hu⟩

/-- A triangle emitted for a quad is one of the two diagonal-split
candidates, with its guards. -/
theorem mem_quadTriangles {t : DepthThresholds} {depth : DepthMap}
    {grid : List ℤ} {v u : ℕ} {tri : Triangle}
    (h : tri ∈ quadTriangles t depth grid v u) :
    (tri = ⟨(gridAt grid (v * depth.cols + u)).toNat,
            (gridAt grid (v * depth.cols + (u + 1))).toNat,
            (gridAt grid ((v + 1) * depth.cols + (u + 1))).toNat⟩ ∧
      0 ≤ gridAt grid (v * depth.cols + u) ∧
      0 ≤ gridAt grid (v * depth.cols + (u + 1)) ∧
      0 ≤ gridAt grid ((v + 1) * depth.cols + (u + 1)) ∧
      isValidTriangle t (depth.dAt v u) (depth.dAt v (u + 1))
        (depth.dAt (v + 1) (u + 1)) = true) ∨
    (tri = ⟨(gridAt grid (v * depth.cols + u)).toNat,
            (gridAt grid ((v + 1) * depth.cols + (u + 1))).toNat,
            (gridAt grid ((v + 1) * depth.cols + u)).toNat⟩ ∧
      0 ≤ gridAt grid (v * depth.cols + u) ∧
      0 ≤ gridAt grid ((v + 1) * depth.cols + (u + 1)) ∧
      0 ≤ gridAt grid ((v + 1) * depth.cols + u) ∧
      isValidTriangle t (depth.dAt v u) (depth.dAt (v + 1) (u + 1))
        (depth.dAt (v + 1) u) = true) := by
  simp only [quadTriangles] at h
  rw [List.mem_append] at h
  rcases h with h | h
  · left
    split_ifs at h with hc
    · rw [List.mem_singleton] at h
      exact ⟨h, hc.1, hc.2.1, hc.2.2.1, hc.2.2.2⟩
    · simp at h
  · right
    split_ifs at h with hc
    · rw [List.mem_singleton] at h
      exact ⟨h, hc.1, hc.2.1, hc.2.2.1, hc.2.2.2⟩
    · simp at h

/-- Shared core of the triangle invariant: three in-range corners with
non-negative grid entries and a passing `isValidTriangle` give index bounds,
positive vertex depths, and unbroken edges, for the vertex list of the
vertex pass. -/
theorem triangle_invariant_aux (t : DepthThresholds) (depth : DepthMap)
    (K : Intrinsics) (mask : ValidMask) (pa pb pc : ℕ × ℕ)
    (hav : pa.1 < depth.rows) (hau : pa.2 < depth.cols)
    (hbv : pb.1 < depth.rows) (hbu : pb.2 < depth.cols)
    (hcv : pc.1 < depth.rows) (hcu : pc.2 < depth.cols)
    (h0 : 0 ≤ gridAt (vertexPass depth K mask).2 (pa.1 * depth.cols + pa.2))
    (h1 : 0 ≤ gridAt (vertexPass depth K mask).2 (pb.1 * depth.cols + pb.2))
    (h2 : 0 ≤ gridAt (vertexPass depth K mask).2 (pc.1 * depth.cols + pc.2))
    (htri : isValidTriangle t (depth.dAt pa.1 pa.2) (depth.dAt pb.1 pb.2)
        (depth.dAt pc.1 pc.2) = true) :
    ((gridAt (vertexPass depth K mask).2 (pa.1 * depth.cols + pa.2)).toNat <
        (vertexPass depth K mask).1.length ∧
      (gridAt (vertexPass depth K mask).2 (pb.1 * depth.cols + pb.2)).toNat <
        (vertexPass depth K mask).1.length ∧
      (gridAt (vertexPass depth K mask).2 (pc.1 * depth.cols + pc.2)).toNat <
        (vertexPass depth K mask).1.length) ∧
    (0 < ((vertexPass depth K mask).1.getD
        (gridAt (vertexPass depth K mask).2 (pa.1 * depth.cols + pa.2)).toNat
        defaultVertex).z ∧
      0 < ((vertexPass depth K mask).1.getD
        (gridAt (vertexPass depth K mask).2 (pb.1 * depth.cols + pb.2)).toNat
        defaultVertex).z ∧
      0 < ((vertexPass depth K mask).1.getD
        (gridAt (vertexPass depth K mask).2 (pc.1 * depth.cols + pc.2)).toNat
        defaultVertex).z) ∧
    (shouldBreakEdge t
        (.val (((vertexPass depth K mask).1.getD
          (gridAt (vertexPass depth K mask).2 (pa.1 * depth.cols + pa.2)).toNat
          defaultVertex).z))
        (.val (((vertexPass depth K mask).1.getD
          (gridAt (vertexPass depth K mask).2 (pb.1 * depth.cols + pb.2)).toNat
          defaultVertex).z)) = false ∧
      shouldBreakEdge t
        (.val (((vertexPass depth K mask).1.getD
          (gridAt (vertexPass depth K mask).2 (pb.1 * depth.cols + pb.2)).toNat
          defaultVertex).z))
        (.val (((vertexPass depth K mask).1.getD
          (gridAt (vertexPass depth K mask).2 (pc.1 * depth.cols + pc.2)).toNat
          defaultVertex).z)) = false ∧
      shouldBreakEdge t
        (.val (((vertexPass depth K mask).1.getD
          (gridAt (vertexPass depth K mask).2 (pc.1 * depth.cols + pc.2)).toNat
          defaultVertex).z))
        (.val (((vertexPass depth K mask).1.getD
          (gridAt (vertexPass depth K mask).2 (pa.1 * depth.cols + pa.2)).toNat
          defaultVertex).z)) = false) := by
  obtain ⟨hva, hia, hga⟩ := grid_lookup t depth K mask pa.1 pa.2 hav hau h0
  obtain ⟨hvb, hib, hgb⟩ := grid_lookup t depth K mask pb.1 pb.2 hbv hbu h1
  obtain ⟨hvc, hic, hgc⟩ := grid_lookup t depth K mask pc.1 pc.2 hcv hcu h2
  obtain ⟨hd0, hd1, hd2, he01, he12, he20⟩ := isValidTriangle_true htri
  obtain ⟨hf0, hp0⟩ := isValidDepth_true hd0
  obtain ⟨hf1, hp1⟩ := isValidDepth_true hd1
  obtain ⟨hf2, hp2⟩ := isValidDepth_true hd2
  rw [hga, hgb, hgc, backproject_z, backproject_z, backproject_z]
  rw [val_toQ_of_finite hf0, val_toQ_of_finite hf1, val_toQ_of_finite hf2]
  exact ⟨⟨hia, hib, hic⟩, ⟨hp0, hp1, hp2⟩, he01, he12, he20⟩

/-- With `tau_rel = 0.1`, an edge from 2 m to 10 m is a discontinuity. -/
theorem step_edge_break_2_10 :
    shouldBreakEdge ⟨1/10, 1/2⟩ (.val 2) (.val 10) = true := by
  norm_num [shouldBreakEdge, DepthThresholds.isDiscontinuity, abs]

/-- With `tau_rel = 0.1`, an edge from 10 m to 2 m is a discontinuity. -/
theorem step_edge_break_10_2 :
    shouldBreakEdge ⟨1/10, 1/2⟩ (.val 10) (.val 2) = true := by
  norm_num [shouldBreakEdge, DepthThresholds.isDiscontinuity, abs]

/-- C5. Every triangle the generator emits references existing vertices
(all three indices are below the vertex count), every referenced vertex has
strictly positive camera-space Z (finiteness is intrinsic to the rational
embedding), and no edge of the triangle joins two depths that the
discontinuity predicate breaks.  In particular, on the step map (left half
2 m, right half 10 m) with `tau_rel=0.1`, `tau_abs=0.5`, no triangle has
one vertex at depth 2 and another at depth 10, i.e. none spans both
halves. -/
theorem c5_triangle_invariant :
    (∀ (t : DepthThresholds) (depth : DepthMap) (K : Intrinsics)
        (mask : ValidMask) (tri : Triangle),
      tri ∈ (generate t depth K mask).triangles →
      (tri.v0 < (generate t depth K mask).vertices.length ∧
       tri.v1 < (generate t depth K mask).vertices.length ∧
       tri.v2 < (generate t depth K mask).vertices.length) ∧
      (0 < ((generate t depth K mask).vertices.getD tri.v0 defaultVertex).z ∧
       0 < ((generate t depth K mask).vertices.getD tri.v1 defaultVertex).z ∧
       0 < ((generate t depth K mask).vertices.getD tri.v2 defaultVertex).z) ∧
      (shouldBreakEdge t
          (.val ((generate t depth K mask).vertices.getD tri.v0 defaultVertex).z)
          (.val ((generate t depth K mask).vertices.getD tri.v1 defaultVertex).z)
          = false ∧
       shouldBreakEdge t
          (.val ((generate t depth K mask).vertices.getD tri.v1 defaultVertex).z)
          (.val ((generate t depth K mask).vertices.getD tri.v2 defaultVertex).z)
          = false ∧
       shouldBreakEdge t
          (.val ((generate t depth K mask).vertices.getD tri.v2 defaultVertex).z)
          (.val ((generate t depth K mask).vertices.getD tri.v0 defaultVertex).z)
          = false)) ∧
    (∀ (W H : ℕ) (K : Intrinsics) (tri : Triangle),
      tri ∈ (generate ⟨1/10, 1/2⟩ (stepDepth W H) K none).triangles →
      ¬ ((((generate ⟨1/10, 1/2⟩ (stepDepth W H) K none).vertices.getD
              tri.v0 defaultVertex).z = 2 ∨
          ((generate ⟨1/10, 1/2⟩ (stepDepth W H) K none).vertices.getD
              tri.v1 defaultVertex).z = 2 ∨
          ((generate ⟨1/10, 1/2⟩ (stepDepth W H) K none).vertices.getD
              tri.v2 defaultVertex).z = 2) ∧
         (((generate ⟨1/10, 1/2⟩ (stepDepth W H) K none).vertices.getD
              tri.v0 defaultVertex).z = 10 ∨
          ((generate ⟨1/10, 1/2⟩ (stepDepth W H) K none).vertices.getD
              tri.v1 defaultVertex).z = 10 ∨
          ((generate ⟨1/10, 1/2⟩ (stepDepth W H) K none).vertices.getD
              tri.v2 defaultVertex).z = 10))) := by
  have main : ∀ (t : DepthThresholds) (depth : DepthMap) (K : Intrinsics)
      (mask : ValidMask) (tri : Triangle),
      tri ∈ (generate t depth K mask).triangles →
      (tri.v0 < (generate t depth K mask).vertices.length ∧
       tri.v1 < (generate t depth K mask).vertices.length ∧
       tri.v2 < (generate t depth K mask).vertices.length) ∧
      (0 < ((generate t depth K mask).vertices.getD tri.v0 defaultVertex).z ∧
       0 < ((generate t depth K mask).vertices.getD tri.v1 defaultVertex).z ∧
       0 < ((generate t depth K mask).vertices.getD tri.v2 defaultVertex).z) ∧
      (shouldBreakEdge t
          (.val ((generate t depth K mask).vertices.getD tri.v0 defaultVertex).z)
          (.val ((generate t depth K mask).vertices.getD tri.v1 defaultVertex).z)
          = false ∧
       shouldBreakEdge t
          (.val ((generate t depth K mask).vertices.getD tri.v1 defaultVertex).z)
          (.val ((generate t depth K mask).vertices.getD tri.v2 defaultVertex).z)
          = false ∧
       shouldBreakEdge t
          (.val ((generate t depth K mask).vertices.getD tri.v2 defaultVertex).z)
          (.val ((generate t depth K mask).vertices.getD tri.v0 defaultVertex).z)
          = false) := by
    intro t depth K mask tri hmem
    by_cases hempty : depth.rows = 0 ∨ depth.cols = 0
    · simp [generate, hempty] at hmem
    · simp only [generate, hempty, if_false] at hmem ⊢
      rw [List.mem_flatMap] at hmem
      obtain ⟨p, hp, htri⟩ := hmem
      obtain ⟨hv1, hu1⟩ := mem_quadList hp
      have hva : p.1 < depth.rows := by omega
      have hvb : p.1 + 1 < depth.rows := by omega
      have hua : p.2 < depth.cols := by omega
      have hub : p.2 + 1 < depth.cols := by omega
      rcases mem_quadTriangles htri with
        ⟨rfl, h00, h10, h11, hval⟩ | ⟨rfl, h00, h11, h01, hval⟩
      · exact triangle_invariant_aux t depth K mask (p.1, p.2) (p.1, p.2 + 1)
          (p.1 + 1, p.2 + 1) hva hua hva hub hvb hub h00 h10 h11 hval
      · exact triangle_invariant_aux t depth K mask (p.1, p.2) (p.1 + 1, p.2 + 1)
          (p.1 + 1, p.2) hva hua hvb hub hvb hua h00 h11 h01 hval
  refine ⟨main, ?_⟩
  intro W H K tri hmem hspan
  obtain ⟨h2s, h10s⟩ := hspan
  obtain ⟨-, -, he01, he12, he20⟩ :=
    main ⟨1/10, 1/2⟩ (stepDepth W H) K none tri hmem
  rcases h2s with ha | ha | ha <;> rcases h10s with hb | hb | hb
  · rw [ha] at hb; norm_num at hb
  · rw [ha, hb] at he01
    rw [step_edge_break_2_10] at he01
    simp at he01
  · rw [ha, hb] at he20
    rw [step_edge_break_10_2] at he20
    simp at he20
  · rw [ha, hb] at he01
    rw [step_edge_break_10_2] at he01
    simp at he01
  · rw [ha] at hb; norm_num at hb
  · rw [ha, hb] at he12
    rw [step_edge_break_2_10] at he12
    simp at he12
  · rw [ha, hb] at he20
    rw [step_edge_break_2_10] at he20
    simp at he20
  · rw [ha, hb] at he12
    rw [step_edge_break_10_2] at he12
    simp at he12
  · rw [ha] at hb; norm_num at hb

/-- When every pixel is valid the grid is the identity enumeration. -/
theorem gridSpec_all_valid (valid : ℕ × ℕ → Bool) :
    ∀ (ps : List (ℕ × ℕ)) (n : ℕ), (∀ p ∈ ps, valid p = true) →
      gridSpec valid n ps =
        (List.range ps.length).map fun j => ((n + j : ℕ) : ℤ) := by
  intro ps
  induction ps with
  | nil => intro n _; rfl
  | cons p ps ih =>
    intro n hall
    have hp : valid p = true := hall p (by simp)
    rw [show gridSpec valid n (p :: ps) = (n : ℤ) :: gridSpec valid (n + 1) ps
      from by simp [gridSpec, hp]]
    rw [ih (n + 1) fun q hq => hall q (by simp [hq])]
    rw [List.length_cons, List.range_succ_eq_map, List.map_cons, List.map_map]
    refine congrArg₂ _ (by simp) ?_
    apply List.map_congr_left
    intro j _
    simp only [Function.comp]
    congr 1
    omega

/-- Grid entry at an in-range index, all pixels valid: the index itself. -/
theorem gridAt_gridSpec_all_valid (valid : ℕ × ℕ → Bool)
    (ps : List (ℕ × ℕ)) (hall : ∀ p ∈ ps, valid p = true)
    (i : ℕ) (hi : i < ps.length) :
    gridAt (gridSpec valid 0 ps) i = (i : ℤ) := by
  rw [gridAt, gridSpec_getD valid ps 0 i hi,
    if_pos (hall _ (List.getElem_mem hi))]
  rw [List.filter_eq_self.mpr fun a ha => hall a (List.take_subset i ps ha)]
  simp [Nat.min_eq_left (le_of_lt hi)]

/-- A constant positive depth never breaks an edge (thresholds positive). -/
theorem shouldBreakEdge_const {t : DepthThresholds} {c : ℚ} (hc : 0 < c)
    (hrel : 0 < t.tau_rel) (habs : 0 < t.tau_abs) :
    shouldBreakEdge t (.val c) (.val c) = false := by
  simp only [shouldBreakEdge, DepthThresholds.isDiscontinuity]
  rw [if_neg (by push_neg; exact ⟨hc, hc⟩)]
  rw [if_neg (by simp only [sub_self, abs_zero, zero_div]; exact not_lt.mpr hrel.le)]
  rw [if_neg ?_]
  simp only [sub_self, abs_zero, max_self]
  refine not_lt.mpr ?_
  have h1 : (0 : ℚ) < max 1 (c / 2) := lt_of_lt_of_le one_pos (le_max_left _ _)
  positivity

/-- A constant positive depth forms valid triangles (thresholds positive). -/
theorem isValidTriangle_const {t : DepthThresholds} {c : ℚ} (hc : 0 < c)
    (hrel : 0 < t.tau_rel) (habs : 0 < t.tau_abs) :
    isValidTriangle t (.val c) (.val c) (.val c) = true := by
  simp [isValidTriangle, isValidDepth, hc, shouldBreakEdge_const hc hrel habs]

/-- Number of quads. -/
theorem quadList_length (W H : ℕ) :
    (quadList W H).length = (H - 1) * (W - 1) := by
  rw [quadList, List.length_flatMap]
  rw [List.map_congr_left (l := List.range (H - 1))
    (g := fun _ => W - 1) (by intro a _; simp [Function.comp])]
  rw [List.map_const', List.sum_replicate, smul_eq_mul]
  simp

/-- On a constant positive depth map with identity grid entries, each quad
emits exactly the two diagonal-split triangles. -/
theorem quadTriangles_const {t : DepthThresholds} {c : ℚ} (W H : ℕ)
    (hc : 0 < c) (hrel : 0 < t.tau_rel) (habs : 0 < t.tau_abs)
    (grid : List ℤ) (v u : ℕ)
    (h00 : gridAt grid (v * W + u) = ((v * W + u : ℕ) : ℤ))
    (h10 : gridAt grid (v * W + (u + 1)) = ((v * W + (u + 1) : ℕ) : ℤ))
    (h01 : gridAt grid ((v + 1) * W + u) = (((v + 1) * W + u : ℕ) : ℤ))
    (h11 : gridAt grid ((v + 1) * W + (u + 1)) = (((v + 1) * W + (u + 1) : ℕ) : ℤ)) :
    quadTriangles t (constDepth W H c) grid v u =
      [⟨v * W + u, v * W + (u + 1), (v + 1) * W + (u + 1)⟩,
       ⟨v * W + u, (v + 1) * W + (u + 1), (v + 1) * W + u⟩] := by
  simp only [quadTriangles, constDepth]
  rw [h00, h10, h01, h11]
  rw [if_pos ⟨Int.natCast_nonneg _, Int.natCast_nonneg _, Int.natCast_nonneg _,
    isValidTriangle_const hc hrel habs⟩]
  rw [if_pos ⟨Int.natCast_nonneg _, Int.natCast_nonneg _, Int.natCast_nonneg _,
    isValidTriangle_const hc hrel habs⟩]
  simp only [Int.toNat_natCast, List.cons_append, List.nil_append]

/-- C6. For a constant positive depth map (no mask, positive thresholds) the
generator produces exactly `W*H` vertices and, quad by quad, the two
fixed-diagonal triangles `{00,10,11}` and `{00,11,01}`, hence exactly
`2*(W-1)*(H-1)` triangles. -/
theorem c6_flat_plane_completeness (W H : ℕ) (c : ℚ) (t : DepthThresholds)
    (K : Intrinsics) (hc : 0 < c) (hrel : 0 < t.tau_rel)
    (habs : 0 < t.tau_abs) :
    (generate t (constDepth W H c) K none).vertices.length = W * H ∧
    (generate t (constDepth W H c) K none).triangles =
      ((quadList W H).flatMap fun p =>
        [⟨p.1 * W + p.2, p.1 * W + (p.2 + 1), (p.1 + 1) * W + (p.2 + 1)⟩,
         ⟨p.1 * W + p.2, (p.1 + 1) * W + (p.2 + 1), (p.1 + 1) * W + p.2⟩]) ∧
    (generate t (constDepth W H c) K none).triangles.length =
      2 * ((W - 1) * (H - 1)) := by
  have hall : ∀ p ∈ pixelList W H,
      (fun p : ℕ × ℕ => pixelValid (constDepth W H c) none p.1 p.2) p = true := by
    intro p _
    simp [pixelValid, constDepth, isValidDepth, hc]
  by_cases hempty : H = 0 ∨ W = 0
  · have hgen : generate t (constDepth W H c) K none = ⟨[], []⟩ := by
      rcases hempty with h | h <;> simp [generate, constDepth, h]
    have hqnil : quadList W H = [] := by
      apply List.eq_nil_of_length_eq_zero
      rw [quadList_length]
      rcases hempty with h | h <;> simp [h]
    rw [hgen, hqnil]
    rcases hempty with h | h <;> simp [h]
  · have hempty2 : ¬((constDepth W H c).rows = 0 ∨ (constDepth W H c).cols = 0) := by
      simpa [constDepth] using hempty
    have hgrid : (vertexPass (constDepth W H c) K none).2 =
        gridSpec (fun p : ℕ × ℕ => pixelValid (constDepth W H c) none p.1 p.2) 0
          (pixelList W H) := by
      rw [vertexPass_eq]
      rfl
    have hplen : (pixelList W H).length = H * W := pixelList_length W H
    have hvlen : (generate t (constDepth W H c) K none).vertices.length = W * H := by
      simp only [generate, hempty2, if_false]
      rw [vertexPass_eq]
      rw [show (constDepth W H c).cols = W from rfl,
        show (constDepth W H c).rows = H from rfl]
      rw [List.filter_eq_self.mpr hall]
      simp [pixelList_length, Nat.mul_comm]
    have htris : (generate t (constDepth W H c) K none).triangles =
        ((quadList W H).flatMap fun p =>
          [⟨p.1 * W + p.2, p.1 * W + (p.2 + 1), (p.1 + 1) * W + (p.2 + 1)⟩,
           ⟨p.1 * W + p.2, (p.1 + 1) * W + (p.2 + 1), (p.1 + 1) * W + p.2⟩]) := by
      simp only [generate, hempty2, if_false]
      rw [show (constDepth W H c).cols = W from rfl,
        show (constDepth W H c).rows = H from rfl]
      apply List.flatMap_congr
      intro p hp
      obtain ⟨hpv, hpu⟩ := mem_quadList hp
      have hva : p.1 < H := by omega
      have hvb : p.1 + 1 < H := by omega
      have hua : p.2 < W := by omega
      have hub : p.2 + 1 < W := by omega
      have hg := fun i (hi : i < (pixelList W H).length) =>
        gridAt_gridSpec_all_valid _ (pixelList W H) hall i hi
      have e00 := hg (p.1 * W + p.2) (by rw [hplen]; exact pixel_index_lt hva hua)
      have e10 := hg (p.1 * W + (p.2 + 1)) (by rw [hplen]; exact pixel_index_lt hva hub)
      have e01 := hg ((p.1 + 1) * W + p.2) (by rw [hplen]; exact pixel_index_lt hvb hua)
      have e11 := hg ((p.1 + 1) * W + (p.2 + 1))
        (by rw [hplen]; exact pixel_index_lt hvb hub)
      rw [← hgrid] at e00 e10 e01 e11
      exact quadTriangles_const (t := t) (c := c) W H hc hrel habs
        ((vertexPass (constDepth W H c) K none).2) p.1 p.2 e00 e10 e01 e11
    refine ⟨hvlen, htris, ?_⟩
    rw [htris, List.length_flatMap]
    rw [List.map_congr_left (l := quadList W H) (g := fun _ => 2)
      (by intro a _; simp [Function.comp])]
    rw [List.map_const', List.sum_replicate, smul_eq_mul, quadList_length]
    rw [Nat.mul_comm (H - 1) (W - 1), Nat.mul_comm]

/-- C7. A build with an empty RGB image, an empty depth map, or mismatched
dimensions fails and leaves the mesh empty and the texture released: no
vertex or triangle data from a previous build survives, because the state is
cleared before validation and the failing branches return the cleared
state. -/
theorem c7_build_validation_failure (s : DepthMeshState) (rgb : ImageMat)
    (depth : DepthMap) (K : Intrinsics) (t : DepthThresholds)
    (h : rgb.rows = 0 ∨ rgb.cols = 0 ∨ depth.rows = 0 ∨ depth.cols = 0 ∨
      rgb.cols ≠ depth.cols ∨ rgb.rows ≠ depth.rows) :
    (DepthMesh.build s rgb depth K t).1 = false ∧
    (DepthMesh.build s rgb depth K t).2.mesh.vertices = [] ∧
    (DepthMesh.build s rgb depth K t).2.mesh.triangles = [] ∧
    (DepthMesh.build s rgb depth K t).2.texture = none := by
  simp only [DepthMesh.build]
  by_cases h1 : (rgb.rows = 0 ∨ rgb.cols = 0) ∨ (depth.rows = 0 ∨ depth.cols = 0)
  · rw [if_pos h1]
    exact ⟨rfl, rfl, rfl, rfl⟩
  · rw [if_neg h1]
    have h2 : rgb.cols ≠ depth.cols ∨ rgb.rows ≠ depth.rows := by tauto
    rw [if_pos h2]
    exact ⟨rfl, rfl, rfl, rfl⟩

/-- C10. After a successful build the stored intrinsics are the caller's
with width and height overwritten by the depth map's column and row counts,
and the mesh was generated with those overwritten intrinsics (so
back-projection and texture coordinates use the depth map's dimensions). -/
theorem c10_build_overwrites_dimensions (s : DepthMeshState) (rgb : ImageMat)
    (depth : DepthMap) (K : Intrinsics) (t : DepthThresholds)
    (hsucc : (DepthMesh.build s rgb depth K t).1 = true) :
    (DepthMesh.build s rgb depth K t).2.intrinsics =
      { K with width := depth.cols, height := depth.rows } ∧
    (DepthMesh.build s rgb depth K t).2.mesh =
      generate t depth { K with width := depth.cols, height := depth.rows }
        none := by
  simp only [DepthMesh.build] at hsucc ⊢
  by_cases h1 : (rgb.rows = 0 ∨ rgb.cols = 0) ∨ (depth.rows = 0 ∨ depth.cols = 0)
  · rw [if_pos h1] at hsucc
    simp at hsucc
  · rw [if_neg h1] at hsucc ⊢
    by_cases h2 : rgb.cols ≠ depth.cols ∨ rgb.rows ≠ depth.rows
    · rw [if_pos h2] at hsucc
      simp at hsucc
    · rw [if_neg h2] at hsucc ⊢
      by_cases h3 : (generate t depth
          { K with width := depth.cols, height := depth.rows } none).emptyB = true
      · rw [if_pos h3] at hsucc
        simp at hsucc
      · rw [if_neg h3] at hsucc ⊢
        exact ⟨rfl, rfl⟩

/-- C8. A render call on an uninitialized surface, or one with no uploaded
mesh or no uploaded texture, fails before any rasterization, reports which
precondition is missing (in the source's check order), and leaves the state
unchanged — so the failure does not invalidate the surface for subsequent
valid calls. -/
theorem c8_render_preconditions (s : RenderState) (targetK : Intrinsics) :
    (s.initialized = false →
      renderCall s targetK = (.error .notInitialized, s)) ∧
    (s.initialized = true → s.numIndices = 0 →
      renderCall s targetK = (.error .noMesh, s)) ∧
    (s.initialized = true → s.numIndices ≠ 0 → s.rgbTexture = 0 →
      renderCall s targetK = (.error .noTexture, s)) := by
  refine ⟨fun h1 => ?_, fun h1 h2 => ?_, fun h1 h2 h3 => ?_⟩
  · simp [renderCall, h1]
  · simp [renderCall, h1, h2]
  · simp [renderCall, h1, h2, h3]

/-- C9. Framebuffer reallocation is driven only by size: with all render
preconditions met, a call whose target size equals the allocated size leaves
the state (in particular the framebuffer handle) untouched; the handle
changes exactly when the framebuffer is absent or sized differently; and the
second of two consecutive renders at the same target size performs no
reallocation.  `hfresh` is the GL name-pool invariant (allocated names are
below the next fresh name). -/
theorem c9_framebuffer_realloc_idempotent (s : RenderState)
    (targetK : Intrinsics) (hinit : s.initialized = true)
    (hmesh : s.numIndices ≠ 0) (htex : s.rgbTexture ≠ 0)
    (hfresh : s.fbId < s.nextHandle) :
    (s.fbId ≠ 0 ∧ s.fbWidth = targetK.width ∧ s.fbHeight = targetK.height →
      renderCall s targetK = (.ok (), s)) ∧
    ((renderCall s targetK).2.fbId = s.fbId ↔
      s.fbId ≠ 0 ∧ s.fbWidth = targetK.width ∧ s.fbHeight = targetK.height) ∧
    (renderCall (renderCall s targetK).2 targetK).2 =
      (renderCall s targetK).2 := by
  by_cases hres : s.fbId = 0 ∨ s.fbWidth ≠ targetK.width ∨
      s.fbHeight ≠ targetK.height
  · have hcall : renderCall s targetK =
        (.ok (), fbCreate s targetK.width targetK.height) := by
      simp [renderCall, hinit, hmesh, htex, hres]
    refine ⟨fun hsame => ?_, ?_, ?_⟩
    · tauto
    · rw [hcall]
      constructor
      · intro hid
        exfalso
        simp only [fbCreate] at hid
        omega
      · intro hsame
        tauto
    · rw [hcall]
      have hnz : s.nextHandle ≠ 0 := by omega
      simp [renderCall, fbCreate, hinit, hmesh, htex, hnz]
  · push_neg at hres
    have hcall : renderCall s targetK = (.ok (), s) := by
      have hcond : ¬(s.fbId = 0 ∨ s.fbWidth ≠ targetK.width ∨
          s.fbHeight ≠ targetK.height) := by tauto
      simp [renderCall, hinit, hmesh, htex]
      intro hc
      rcases hc with hc | hc | hc <;> tauto
    refine ⟨fun _ => hcall, ?_, ?_⟩
    · rw [hcall]
      simp only [true_iff, iff_true]
      exact ⟨hres.1, hres.2.1, hres.2.2⟩
    · rw [hcall]
      rw [hcall]

/-- One render pass over an extended fragment stream: process the last
fragment on the previous raster state. -/
theorem rasterize_concat (frs : List Fragment) (fr : Fragment) :
    rasterize (frs ++ [fr]) = processFragment (rasterize frs) fr := by
  simp [rasterize, List.foldl_append]

/-- A pixel never written keeps the clear values: mask 0 forces rgb 0 and
metric depth 0. -/
theorem mask_zero_clear (frs : List Fragment) (p : ℕ) :
    (rasterize frs).mask p = 0 →
    (rasterize frs).rgb p = 0 ∧ (rasterize frs).depth p = 0 := by
  induction frs using List.reverseRecOn with
  | nil => intro _; exact ⟨rfl, rfl⟩
  | append_singleton frs fr ih =>
    intro hm
    rw [rasterize_concat] at hm ⊢
    unfold processFragment at hm ⊢
    by_cases hpass : fr.winDepth < (rasterize frs).zbuf fr.pix
    · rw [if_pos hpass] at hm ⊢
      simp only at hm ⊢
      by_cases hp : p = fr.pix
      · rw [if_pos hp] at hm
        simp at hm
      · rw [if_neg hp] at hm
        rw [if_neg hp, if_neg hp]
        exact ih hm
    · rw [if_neg hpass] at hm ⊢
      exact ih hm

/-- The mask is 1 exactly at pixels covered by a fragment that survived the
depth test when it was processed. -/
theorem mask_one_iff_wins (frs : List Fragment) (p : ℕ) :
    (rasterize frs).mask p = 1 ↔ wins frs p := by
  induction frs using List.reverseRecOn with
  | nil =>
    constructor
    · intro hm
      simp [rasterize, clearedRaster] at hm
    · intro ⟨i, hi, _⟩
      simp at hi
  | append_singleton frs fr ih =>
    have hlen : (frs ++ [fr]).length = frs.length + 1 := by simp
    have hgetlast : ∀ (h : frs.length < (frs ++ [fr]).length),
        (frs ++ [fr]).get ⟨frs.length, h⟩ = fr := by
      intro h
      simp
    have hgetold : ∀ (i : ℕ) (hi : i < frs.length)
        (h : i < (frs ++ [fr]).length),
        (frs ++ [fr]).get ⟨i, h⟩ = frs.get ⟨i, hi⟩ := by
      intro i hi h
      rw [List.get_eq_getElem, List.get_eq_getElem,
        List.getElem_append_left hi]
    have htakeold : ∀ (i : ℕ), i ≤ frs.length →
        (frs ++ [fr]).take i = frs.take i := by
      intro i hi
      rw [List.take_append_of_le_length hi]
    have htakelast : (frs ++ [fr]).take frs.length = frs := by
      rw [List.take_append_of_le_length (le_refl _), List.take_length]
    rw [rasterize_concat]
    unfold processFragment
    by_cases hpass : fr.winDepth < (rasterize frs).zbuf fr.pix
    · rw [if_pos hpass]
      simp only
      by_cases hp : p = fr.pix
      · rw [if_pos hp]
        constructor
        · intro _
          refine ⟨frs.length, by simp, ?_, ?_⟩
          · rw [hgetlast]
            exact hp.symm
          · rw [hgetlast, htakelast, hp]
            exact hpass
        · intro _
          rfl
      · rw [if_neg hp]
        rw [ih]
        constructor
        · intro ⟨i, hi, hpix, hwin⟩
          exact ⟨i, by omega, by rw [hgetold i hi]; exact hpix,
            by rw [hgetold i hi, htakeold i (le_of_lt hi)]; exact hwin⟩
        · intro ⟨i, hi, hpix, hwin⟩
          have hi2 : i < frs.length := by
            rcases Nat.lt_or_ge i frs.length with h | h
            · exact h
            · exfalso
              have : i = frs.length := by omega
              subst this
              rw [hgetlast] at hpix
              exact hp hpix.symm
          refine ⟨i, hi2, ?_, ?_⟩
          · rw [← hgetold i hi2]; exact hpix
          · rw [← htakeold i (le_of_lt hi2), ← hgetold i hi2]; exact hwin
    · rw [if_neg hpass]
      rw [ih]
      constructor
      · intro ⟨i, hi, hpix, hwin⟩
        exact ⟨i, by omega, by rw [hgetold i hi]; exact hpix,
          by rw [hgetold i hi, htakeold i (le_of_lt hi)]; exact hwin⟩
      · intro ⟨i, hi, hpix, hwin⟩
        have hi2 : i < frs.length := by
          rcases Nat.lt_or_ge i frs.length with h | h
          · exact h
          · exfalso
            have heq : i = frs.length := by omega
            subst heq
            rw [hgetlast] at hpix
            rw [htakelast] at hwin
            rw [hgetlast] at hwin
            rw [← hpix] at hwin
            exact hpass hwin
        refine ⟨i, hi2, ?_, ?_⟩
        · rw [← hgetold i hi2]; exact hpix
        · rw [← htakeold i (le_of_lt hi2), ← hgetold i hi2]; exact hwin

/-- C4. In the modelled render pass, the mask buffer holds 1 at a pixel iff
some rasterized fragment at that pixel won the depth test (the fragment
stage writes constant 1 as the mask output); wherever the mask is 0, the rgb
and metric-depth values are the defined clear values (0), never residual
data — every attachment is cleared before the pass. -/
theorem c4_mask_validity_contract (frs : List Fragment) (p : ℕ) :
    ((rasterize frs).mask p = 1 ↔ wins frs p) ∧
    ((rasterize frs).mask p = 0 →
      (rasterize frs).rgb p = 0 ∧ (rasterize frs).depth p = 0) :=
  ⟨mask_one_iff_wins frs p, mask_zero_clear frs p⟩

/-- A fully evaluated 2x2 constant-depth mesh, shared by the concrete
instantiations below. -/
theorem generate_two_by_two :
    generate ⟨1, 1⟩ (constDepth 2 2 1) ⟨1, 1, 0, 0, 2, 2⟩ none =
      ⟨[⟨1/2, 1/2, 1, 1/4, 1/4⟩, ⟨3/2, 1/2, 1, 3/4, 1/4⟩,
        ⟨1/2, 3/2, 1, 1/4, 3/4⟩, ⟨3/2, 3/2, 1, 3/4, 3/4⟩],
       [⟨0, 1, 3⟩, ⟨0, 3, 2⟩]⟩ := by
  norm_num [generate, vertexPass, vertexStep, pixelValid, isValidDepth,
    pixelList, quadList, quadTriangles, gridAt, isValidTriangle,
    shouldBreakEdge, DepthThresholds.isDiscontinuity, backproject,
    constDepth, FloatVal.toQ, List.range_succ, Mesh.mk.injEq]
  decide

/-- Witness for C5: a concrete emitted triangle with a positive-depth
vertex. -/
theorem c5_triangle_invariant_witness :
    (⟨0, 1, 3⟩ : Triangle) ∈
      (generate ⟨1, 1⟩ (constDepth 2 2 1) ⟨1, 1, 0, 0, 2, 2⟩ none).triangles ∧
    0 < ((generate ⟨1, 1⟩ (constDepth 2 2 1) ⟨1, 1, 0, 0, 2, 2⟩
        none).vertices.getD 0 defaultVertex).z := by
  have hmem : (⟨0, 1, 3⟩ : Triangle) ∈
      (generate ⟨1, 1⟩ (constDepth 2 2 1) ⟨1, 1, 0, 0, 2, 2⟩ none).triangles := by
    rw [generate_two_by_two]
    simp
  exact ⟨hmem, (c5_triangle_invariant.1 ⟨1, 1⟩ (constDepth 2 2 1)
    ⟨1, 1, 0, 0, 2, 2⟩ none ⟨0, 1, 3⟩ hmem).2.1.1⟩

/-- Witness for C6: the 2x2 constant map gives 4 vertices and 2 triangles. -/
theorem c6_flat_plane_completeness_witness :
    (generate ⟨1, 1⟩ (constDepth 2 2 1) ⟨1, 1, 0, 0, 2, 2⟩
        none).vertices.length = 2 * 2 ∧
    (generate ⟨1, 1⟩ (constDepth 2 2 1) ⟨1, 1, 0, 0, 2, 2⟩
        none).triangles.length = 2 * ((2 - 1) * (2 - 1)) := by
  have h := c6_flat_plane_completeness 2 2 1 ⟨1, 1⟩ ⟨1, 1, 0, 0, 2, 2⟩
    (by norm_num) (by norm_num) (by norm_num)
  exact ⟨h.1, h.2.2⟩

/-- Witness for C7: a build with an empty RGB image fails with a cleared
state. -/
theorem c7_build_validation_failure_witness :
    (DepthMesh.build ⟨⟨[], []⟩, none, defaultIntrinsics, 0, 0⟩ ⟨0, 0⟩
        (constDepth 2 2 1) defaultIntrinsics ⟨1, 1⟩).1 = false ∧
    (DepthMesh.build ⟨⟨[], []⟩, none, defaultIntrinsics, 0, 0⟩ ⟨0, 0⟩
        (constDepth 2 2 1) defaultIntrinsics ⟨1, 1⟩).2.texture = none := by
  have h := c7_build_validation_failure ⟨⟨[], []⟩, none, defaultIntrinsics, 0, 0⟩
    ⟨0, 0⟩ (constDepth 2 2 1) defaultIntrinsics ⟨1, 1⟩ (Or.inl rfl)
  exact ⟨h.1, h.2.2.2⟩

/-- Witness for C8: an uninitialized renderer refuses with
`notInitialized` and an unchanged state. -/
theorem c8_render_preconditions_witness :
    renderCall ⟨false, 0, 0, 0, 0, 0, 1⟩ defaultIntrinsics =
      (.error .notInitialized, ⟨false, 0, 0, 0, 0, 0, 1⟩) :=
  (c8_render_preconditions ⟨false, 0, 0, 0, 0, 0, 1⟩ defaultIntrinsics).1 rfl

/-- Witness for C9: a render at the already-allocated 640x480 size changes
nothing. -/
theorem c9_framebuffer_realloc_idempotent_witness :
    renderCall ⟨true, 3, 5, 7, 640, 480, 8⟩ defaultIntrinsics =
      (.ok (), ⟨true, 3, 5, 7, 640, 480, 8⟩) :=
  (c9_framebuffer_realloc_idempotent ⟨true, 3, 5, 7, 640, 480, 8⟩
      defaultIntrinsics rfl (by decide) (by decide) (by decide)).1
    ⟨by decide, rfl, rfl⟩

/-- Witness for C10: a successful 2x2 build stores the depth map's
dimensions in the intrinsics. -/
theorem c10_build_overwrites_dimensions_witness :
    (DepthMesh.build ⟨⟨[], []⟩, none, defaultIntrinsics, 0, 0⟩ ⟨2, 2⟩
        (constDepth 2 2 1) ⟨1, 1, 0, 0, 2, 2⟩ ⟨1, 1⟩).2.intrinsics =
      { (⟨1, 1, 0, 0, 2, 2⟩ : Intrinsics) with
          width := (constDepth 2 2 1).cols, height := (constDepth 2 2 1).rows } := by
  have hsucc : (DepthMesh.build ⟨⟨[], []⟩, none, defaultIntrinsics, 0, 0⟩ ⟨2, 2⟩
      (constDepth 2 2 1) ⟨1, 1, 0, 0, 2, 2⟩ ⟨1, 1⟩).1 = true := by
    have hc1 : (constDepth 2 2 1).cols = 2 := rfl
    have hc2 : (constDepth 2 2 1).rows = 2 := rfl
    simp only [DepthMesh.build, hc1, hc2]
    norm_num [generate_two_by_two, Mesh.emptyB]
  exact (c10_build_overwrites_dimensions ⟨⟨[], []⟩, none, defaultIntrinsics, 0, 0⟩
    ⟨2, 2⟩ (constDepth 2 2 1) ⟨1, 1, 0, 0, 2, 2⟩ ⟨1, 1⟩ hsucc).1

/-- Witness for C4: with one fragment at pixel 0, pixel 1 keeps the clear
values. -/
theorem c4_mask_validity_contract_witness :
    (rasterize [⟨0, 1/2, 7, 5⟩]).rgb 1 = 0 ∧
    (rasterize [⟨0, 1/2, 7, 5⟩]).depth 1 = 0 :=
  (c4_mask_validity_contract [⟨0, 1/2, 7, 5⟩] 1).2 (by
    norm_num [rasterize, processFragment, clearedRaster])

end RGBD
